import Mathlib

/-!
Verification development for the Paladin private-transaction coordinator.

The development shallowly embeds the components that the specification's
claims speak about:

* the endorsement gate (`approveEndorsement`, `onTransactionReverted`),
* the contention resolver (`resolveWinner`),
* the registry transport-details upsert (`upsertTransportDetail`),
* the transport wire message (`messageProtoFields`, `transportMessage`), and
* the sequencer event loop (`SeqState`, `step`, `runEvents`).

The sequencer, endorsement gate and contention resolver implementations are
not present under the repository sources provided (only their unit tests
are), so those components are modelled from the specification, as noted in
the doc comment of each such definition.  Transaction ids, state ids and
node ids are modelled as natural numbers.
-/

namespace Paladin

/-! ## Endorsement gate (spec §4.4)

Modelled from the spec: the implementation of the sequencer's
`ApproveEndorsement` / `OnTransactionReverted` pair is absent from the
provided sources (only its tests are present); the model follows §4.4:
state `signedInputs : stateId → txId`; approve iff every input state is
unrecorded or recorded for the same transaction; on approval record every
input state; on revert drop every record whose value is the reverted
transaction. -/

/-- GateState is the `signedInputs` association `stateId → txId`;
only non-reverted recordings are kept in it. -/
abbrev GateState := List (Nat × Nat)

/-- gateLookup returns the transaction currently recorded for a state, if any. -/
def gateLookup (g : GateState) (s : Nat) : Option Nat :=
  match g with
  | [] => none
  | (s₀, t₀) :: rest => if s = s₀ then some t₀ else gateLookup rest s

/-- gateEraseKey drops every recording for the state `s`. -/
def gateEraseKey (s : Nat) : GateState → GateState
  | [] => []
  | p :: rest => if p.1 = s then gateEraseKey s rest else p :: gateEraseKey s rest

/-- gateUpdate records `txId` against the state `s`, replacing any
previous recording for `s`. -/
def gateUpdate (g : GateState) (s txId : Nat) : GateState :=
  (s, txId) :: gateEraseKey s g

/-- approveOk is the approval rule of §4.4: approve iff for every
`s ∈ inputStates`, `signedInputs[s]` is either absent or equals `txId`. -/
def approveOk (g : GateState) (txId : Nat) (inputStates : List Nat) : Bool :=
  inputStates.all fun s =>
    match gateLookup g s with
    | none => true
    | some t => decide (t = txId)

/-- approveEndorsement returns the decision and the updated gate state:
on approval every input state is atomically recorded against `txId`. -/
def approveEndorsement (g : GateState) (txId : Nat) (inputStates : List Nat) :
    Bool × GateState :=
  if approveOk g txId inputStates then
    (true, inputStates.foldl (fun acc s => gateUpdate acc s txId) g)
  else
    (false, g)

/-- onTransactionReverted removes every `signedInputs` recording whose
value equals the reverted transaction id. -/
def onTransactionReverted (g : GateState) (txId : Nat) : GateState :=
  match g with
  | [] => []
  | p :: rest =>
    if p.2 = txId then onTransactionReverted rest txId
    else p :: onTransactionReverted rest txId

/-- gateKeys lists the recorded state ids. -/
def gateKeys (g : GateState) : List Nat := g.map (·.1)

/-- GateWF says each state id is recorded at most once; this holds for
every gate state reachable through the gate's operations. -/
abbrev GateWF (g : GateState) : Prop := (gateKeys g).Nodup

/-! ## Contention resolver (spec §4.3)

Modelled from the spec: the resolver implementation is absent from the
provided sources (the tests only mock it).  §4.3 prescribes computing
`H(stateId || min(txA,txB) || max(txA,txB))` and selecting the winner from
a designated bit of the hash; the hash `H` and the bit index are design
parameters, so the model is parameterised over both.  Selecting from the
ordered pair `(min, max)` makes the verdict independent of argument
order, as the contract in §4.3 requires. -/

/-- resolveWinner picks the winner of a contention for `stateId` between
transactions `a` and `b`: the designated bit of `H stateId (min a b)
(max a b)` selects between the smaller and the larger id. -/
def resolveWinner (H : Nat → Nat → Nat → Nat) (bitIndex : Nat)
    (stateId a b : Nat) : Nat :=
  if (H stateId (min a b) (max a b)).testBit bitIndex then max a b else min a b

/-- resolveOnNode is the verdict computed by an honest node: the node's
identity plays no part in the computation. -/
def resolveOnNode (_nodeId : Nat) (H : Nat → Nat → Nat → Nat) (bitIndex : Nat)
    (stateId a b : Nat) : Nat :=
  resolveWinner H bitIndex stateId a b

/-! ## Registry transport details upsert

Embedded from `upsertTransportDetailsBatch`: rows of the
`registry_transport_details` table carry `(registry, node, transport,
details)`; the upsert declares a conflict target of `(registry, node,
transport)` and on conflict updates only the `details` column. -/

/-- TransportDetailsRow is one row of `registry_transport_details`. -/
structure TransportDetailsRow where
  registry : String
  node : String
  transport : String
  details : String
  deriving DecidableEq, Repr

/-- rowKey is the conflict target `(registry, node, transport)` of the upsert. -/
def rowKey (r : TransportDetailsRow) : String × String × String :=
  (r.registry, r.node, r.transport)

/-- upsertTransportDetail inserts one row; when a row with the same
`(registry, node, transport)` key exists, only its `details` column is
replaced by the incoming value. -/
def upsertTransportDetail (table : List TransportDetailsRow)
    (e : TransportDetailsRow) : List TransportDetailsRow :=
  if table.any (fun r => decide (rowKey r = rowKey e)) then
    table.map fun r =>
      if rowKey r = rowKey e then { r with details := e.details } else r
  else
    table ++ [e]

/-- upsertTransportDetailsBatch validates every entry (node and transport
must be non-empty, as the source checks) and then upserts the entries in
order; `none` models the error return. -/
def upsertTransportDetailsBatch (table : List TransportDetailsRow)
    (entries : List TransportDetailsRow) : Option (List TransportDetailsRow) :=
  if entries.all (fun e => !(e.node == "") && !(e.transport == "")) then
    some (entries.foldl upsertTransportDetail table)
  else
    none

/-- getDetails looks up the stored details for a key. -/
def getDetails (table : List TransportDetailsRow) (k : String × String × String) :
    Option String :=
  (table.find? (fun r => decide (rowKey r = k))).map (·.details)

/-! ## Transport wire message

Embedded from `to_transport.proto` (`Message`) and from the transport
writer `transport_writer.go` (`SendDelegationRequest`,
`SendEndorsementRequest`). -/

/-- messageProtoFields lists, in declaration order, the header fields of
the `Message` proto in `to_transport.proto`. -/
def messageProtoFields : List String :=
  ["message_id", "correlation_id", "component", "node", "reply_to",
   "message_type", "payload"]

/-- TransportMessage carries the fields the transport writer populates on
`components.TransportMessage` when sending. -/
structure TransportMessage where
  messageType : String
  payload : List Nat
  component : String
  node : String
  replyTo : String
  deriving DecidableEq, Repr

/-- transportMessageFields lists the fields the transport writer sets on
an outbound `components.TransportMessage`. -/
def transportMessageFields : List String :=
  ["messageType", "payload", "component", "node", "replyTo"]

/-- PRIVATE_TX_MANAGER_DESTINATION is the component-routing constant used
by the transport writer; its definition is outside the provided sources
and its concrete value is immaterial to the claims. -/
def PRIVATE_TX_MANAGER_DESTINATION : String := "private-tx-manager"

/-- sendDelegationRequestMessage builds the message sent by
`SendDelegationRequest`: the destination is the delegate node and the
reply-to is the writer's own node id. -/
def sendDelegationRequestMessage (nodeID delegateNodeId : String)
    (payload : List Nat) : TransportMessage :=
  { messageType := "DelegationRequest"
    payload := payload
    component := PRIVATE_TX_MANAGER_DESTINATION
    node := delegateNodeId
    replyTo := nodeID }

/-- sendEndorsementRequestMessage builds the message sent by
`SendEndorsementRequest`: the destination is the target node and the
reply-to is the writer's own node id. -/
def sendEndorsementRequestMessage (nodeID targetNode : String)
    (payload : List Nat) : TransportMessage :=
  { messageType := "EndorsementRequest"
    payload := payload
    component := PRIVATE_TX_MANAGER_DESTINATION
    node := targetNode
    replyTo := nodeID }

/-! ## Sequencer (spec §4.6)

Modelled from the spec: the sequencer implementation is absent from the
provided sources (only its unit tests are present).  The model follows
§4.6: transactions carry input/output state sets and an assembling node;
dependency edges are producer→consumer on a state id (§4.2); routing on
assignment follows §4.6.2 (zero remote owners → ready, one → delegate,
two or more → blocked, with re-evaluation on later confirmation or
delegation events); dispatch follows §4.6.3 (a maximal dependency-closed
batch of endorsed ready transactions, in dependency order with ties by
ascending transaction id); the blocked-transactions index is cleared when
a transaction leaves the blocked state (§9). -/

/-- TxStatus is the lifecycle state of a transaction on this node
(§4.6.1); `delegated` remembers the delegate node. -/
inductive TxStatus where
  | assembled
  | assigned
  | blocked
  | delegated (node : Nat)
  | dispatched
  | confirmed
  | reverted
  deriving DecidableEq, Repr

/-- Tx is the sequencer's record of one in-flight transaction. -/
structure Tx where
  id : Nat
  node : Nat
  inputs : List Nat
  outputs : List Nat
  endorsed : Bool
  status : TxStatus
  deriving DecidableEq, Repr

/-- SeqState is the state of one sequencer instance: its own node id, the
known transactions, the delegations of remote transactions it has
observed, and the blocked-transactions index. -/
structure SeqState where
  localNode : Nat
  txs : List Tx
  delegations : List (Nat × Nat)
  blockedIndex : List Nat
  deriving DecidableEq, Repr

/-- Action is an outbound effect of the sequencer: a dispatch call to the
dispatcher, a delegation request (transaction, delegating node, delegate
node), or a transaction-blocked event. -/
inductive Action where
  | dispatch (batch : List Nat)
  | delegate (txId delegatingNode delegateNode : Nat)
  | blockedEvent (txId : Nat)
  deriving DecidableEq, Repr

/-- initialSeqState is a fresh sequencer for a node. -/
def initialSeqState (localNode : Nat) : SeqState :=
  { localNode := localNode, txs := [], delegations := [], blockedIndex := [] }

/-- findTx looks a transaction up by id. -/
def findTx : List Tx → Nat → Option Tx
  | [], _ => none
  | t :: ts, i => if t.id = i then some t else findTx ts i

/-- setTxStatus rewrites the status of the transaction with the given id. -/
def setTxStatus (txs : List Tx) (txId : Nat) (st : TxStatus) : List Tx :=
  txs.map fun t => if t.id = txId then { t with status := st } else t

/-- setTxEndorsed marks the transaction with the given id as endorsed. -/
def setTxEndorsed (txs : List Tx) (txId : Nat) : List Tx :=
  txs.map fun t => if t.id = txId then { t with endorsed := true } else t

/-- delegationLookup returns the delegate node this sequencer has observed
for a transaction, if any. -/
def delegationLookup : List (Nat × Nat) → Nat → Option Nat
  | [], _ => none
  | (i, n) :: rest, txId => if txId = i then some n else delegationLookup rest txId

/-- currentOwner is the node that must sequence a transaction: the latest
observed delegate if a delegation has been observed, otherwise the
assembling node (§4.6.2). -/
def currentOwner (st : SeqState) (t : Tx) : Nat :=
  match delegationLookup st.delegations t.id with
  | some n => n
  | none => t.node

/-- memNat is list membership on state ids. -/
def memNat (x : Nat) : List Nat → Bool
  | [] => false
  | y :: ys => if x = y then true else memNat x ys

/-- anyIntersect tests whether two state-id sets intersect. -/
def anyIntersect : List Nat → List Nat → Bool
  | [], _ => false
  | x :: xs, ys => if memNat x ys then true else anyIntersect xs ys

/-- inGraph says the transaction is still a graph node: `confirmed` and
`reverted` transactions are removed from the graph (§4.2). -/
def inGraph (t : Tx) : Bool :=
  match t.status with
  | .confirmed => false
  | .reverted => false
  | _ => true

/-- depsOf returns the producers this transaction depends on: the other
in-graph transactions whose outputs intersect its inputs (§4.2). -/
def depsOf (st : SeqState) (t : Tx) : List Tx :=
  st.txs.filter fun p => decide (p.id ≠ t.id) && inGraph p && anyIntersect p.outputs t.inputs

/-- dedupNat removes duplicates, keeping first occurrences. -/
def dedupNat : List Nat → List Nat
  | [] => []
  | x :: xs => if memNat x xs then dedupNat xs else x :: dedupNat xs

/-- remoteOwners is the set `R` of §4.6.2: the distinct owning nodes of
this transaction's dependencies, excluding the local node. -/
def remoteOwners (st : SeqState) (t : Tx) : List Nat :=
  dedupNat (((depsOf st t).map (currentOwner st)).filter fun n => decide (n ≠ st.localNode))

/-- insertSorted inserts into an ascending list. -/
def insertSorted (x : Nat) : List Nat → List Nat
  | [] => [x]
  | y :: ys => if x ≤ y then x :: y :: ys else y :: insertSorted x ys

/-- sortNat sorts ascending (the deterministic order of §9). -/
def sortNat (l : List Nat) : List Nat := l.foldr insertSorted []

/-- eraseNat removes every occurrence of a number. -/
def eraseNat (x : Nat) : List Nat → List Nat
  | [] => []
  | y :: ys => if y = x then eraseNat x ys else y :: eraseNat x ys

/-- insertIfAbsent adds a number unless already present. -/
def insertIfAbsent (x : Nat) (l : List Nat) : List Nat :=
  if memNat x l then l else x :: l

/-- onTransactionAssembled records a newly assembled transaction; the
event is ignored when the transaction is already known (idempotent
delivery, spec P6). -/
def onTransactionAssembled (st : SeqState) (txId nodeId : Nat)
    (inputs outputs : List Nat) : SeqState × List Action :=
  match findTx st.txs txId with
  | some _ => (st, [])
  | none =>
    ({ st with
        txs := st.txs ++
          [{ id := txId, node := nodeId, inputs := inputs, outputs := outputs,
             endorsed := false, status := .assembled }] }, [])

/-- assignTransaction accepts ownership of a transaction and applies the
routing policy of §4.6.2: no remote owner → ready (kept in `assigned`),
one remote owner → delegate to it, two or more → blocked.  A transaction
leaving the blocked state is removed from the blocked index (§9). -/
def assignTransaction (st : SeqState) (txId : Nat) : SeqState × List Action :=
  match findTx st.txs txId with
  | none => (st, [])
  | some t =>
    match remoteOwners st t with
    | [] =>
      ({ st with
          txs := setTxStatus st.txs txId .assigned
          blockedIndex := eraseNat txId st.blockedIndex }, [])
    | [r] =>
      ({ st with
          txs := setTxStatus st.txs txId (.delegated r)
          blockedIndex := eraseNat txId st.blockedIndex },
        [.delegate txId st.localNode r])
    | _ :: _ :: _ =>
      ({ st with
          txs := setTxStatus st.txs txId .blocked
          blockedIndex := insertIfAbsent txId st.blockedIndex },
        [.blockedEvent txId])

/-- recomputeBlockedOne re-applies the routing policy to one blocked
transaction after a confirmation or delegation update (§4.6.2 rule 4);
when the remote owner set has shrunk to at most one, the transaction
leaves the blocked state and the blocked index. -/
def recomputeBlockedOne (st : SeqState) (txId : Nat) : SeqState × List Action :=
  match findTx st.txs txId with
  | none => (st, [])
  | some t =>
    if t.status = .blocked then
      match remoteOwners st t with
      | [] =>
        ({ st with
            txs := setTxStatus st.txs txId .assigned
            blockedIndex := eraseNat txId st.blockedIndex }, [])
      | [r] =>
        ({ st with
            txs := setTxStatus st.txs txId (.delegated r)
            blockedIndex := eraseNat txId st.blockedIndex },
          [.delegate txId st.localNode r])
      | _ :: _ :: _ => (st, [])
    else (st, [])

/-- recomputeBlockedList folds `recomputeBlockedOne` over a worklist. -/
def recomputeBlockedList (st : SeqState) : List Nat → SeqState × List Action
  | [] => (st, [])
  | i :: is =>
    let r := recomputeBlockedOne st i
    let rest := recomputeBlockedList r.1 is
    (rest.1, r.2 ++ rest.2)

/-- recomputeBlocked re-evaluates every blocked transaction, in ascending
transaction-id order (the deterministic order of §9). -/
def recomputeBlocked (st : SeqState) : SeqState × List Action :=
  recomputeBlockedList st (sortNat st.blockedIndex)

/-- eligibleForDispatch says a transaction may join a dispatch batch: it
is owned here, out of the blocked/delegated states, and fully endorsed
(§4.6.3). -/
def eligibleForDispatch (t : Tx) : Bool :=
  decide (t.status = .assigned) && t.endorsed

/-- depSatisfied says a producer no longer gates its consumer: it has
been dispatched already or is scheduled earlier in the batch (I-T4). -/
def depSatisfied (batch : List Nat) (p : Tx) : Bool :=
  decide (p.status = .dispatched) || memNat p.id batch

/-- batchStep collects, in ascending id order, the eligible transactions
not yet in the batch whose dependencies are all satisfied. -/
def batchStep (st : SeqState) (batch : List Nat) : List Nat :=
  (sortNat (((st.txs.filter fun t =>
      eligibleForDispatch t && !memNat t.id batch).map (·.id)))).filter
    fun i =>
      match findTx st.txs i with
      | some t => (depsOf st t).all (depSatisfied batch)
      | none => false

/-- computeBatchAux grows the batch to a fixpoint, bounded by fuel. -/
def computeBatchAux : Nat → SeqState → List Nat → List Nat
  | 0, _, batch => batch
  | fuel + 1, st, batch =>
    let news := batchStep st batch
    if news.isEmpty then batch else computeBatchAux fuel st (batch ++ news)

/-- computeBatch is the dispatch batch of §4.6.3: the maximal
dependency-closed set of endorsed ready transactions, listed in
dependency order with ties broken by ascending id. -/
def computeBatch (st : SeqState) : List Nat :=
  computeBatchAux st.txs.length st []

/-- markDispatched moves every batch member to `dispatched`. -/
def markDispatched (txs : List Tx) (batch : List Nat) : List Tx :=
  txs.map fun t => if memNat t.id batch then { t with status := .dispatched } else t

/-- onTransactionEndorsed records an endorsement and then dispatches the
resulting batch, if any (§4.6.3). -/
def onTransactionEndorsed (st : SeqState) (txId : Nat) : SeqState × List Action :=
  match computeBatch { st with txs := setTxEndorsed st.txs txId } with
  | [] => ({ st with txs := setTxEndorsed st.txs txId }, [])
  | b :: bs =>
    ({ st with txs := markDispatched (setTxEndorsed st.txs txId) (b :: bs) },
      [.dispatch (b :: bs)])

/-- onTransactionDelegated records an observed delegation of a (remote)
transaction and re-evaluates the blocked transactions (§4.6.2 rule 4). -/
def onTransactionDelegated (st : SeqState) (txId delegateNode : Nat) :
    SeqState × List Action :=
  recomputeBlocked { st with delegations := (txId, delegateNode) :: st.delegations }

/-- onTransactionConfirmed records a confirmation, removes the transaction
from the graph and the blocked index, and re-evaluates the blocked
transactions (§4.6.2 rule 4). -/
def onTransactionConfirmed (st : SeqState) (txId : Nat) : SeqState × List Action :=
  recomputeBlocked
    { st with
        txs := setTxStatus st.txs txId .confirmed
        blockedIndex := eraseNat txId st.blockedIndex }

/-- onTransactionRevertedSeq marks a transaction reverted, removing it
from the graph and the blocked index (§4.6.4). -/
def onTransactionRevertedSeq (st : SeqState) (txId : Nat) : SeqState × List Action :=
  ({ st with
      txs := setTxStatus st.txs txId .reverted
      blockedIndex := eraseNat txId st.blockedIndex }, [])

/-- Event is one inbound sequencer event. -/
inductive Event where
  | assembled (txId nodeId : Nat) (inputs outputs : List Nat)
  | assign (txId : Nat)
  | endorsed (txId : Nat)
  | delegatedEvt (txId delegateNode : Nat)
  | confirmedEvt (txId : Nat)
  | revertedEvt (txId : Nat)
  deriving DecidableEq, Repr

/-- step processes one event. -/
def step (st : SeqState) : Event → SeqState × List Action
  | .assembled txId nodeId inputs outputs =>
    onTransactionAssembled st txId nodeId inputs outputs
  | .assign txId => assignTransaction st txId
  | .endorsed txId => onTransactionEndorsed st txId
  | .delegatedEvt txId delegateNode => onTransactionDelegated st txId delegateNode
  | .confirmedEvt txId => onTransactionConfirmed st txId
  | .revertedEvt txId => onTransactionRevertedSeq st txId

/-- runEvents processes a list of events, accumulating the emitted
actions in order. -/
def runEvents (st : SeqState) : List Event → SeqState × List Action
  | [] => (st, [])
  | e :: es =>
    let r := step st e
    let rest := runEvents r.1 es
    (rest.1, r.2 ++ rest.2)

/-! ## Sequencer lemmas -/

/-- SeqInv is the structural invariant of the sequencer state: known
transactions have distinct ids, and every entry of the blocked index is
the id of a transaction that is actually in the blocked state. -/
def SeqInv (st : SeqState) : Prop :=
  (st.txs.map (·.id)).Nodup ∧
  ∀ i ∈ st.blockedIndex, ∃ t ∈ st.txs, t.id = i ∧ t.status = .blocked

theorem mem_memNat {x : Nat} : ∀ {l : List Nat}, memNat x l = true ↔ x ∈ l := by
  intro l
  induction l with
  | nil => simp [memNat]
  | cons y ys ih =>
    by_cases h : x = y <;> simp [memNat, h, ih]

theorem mem_eraseNat {x y : Nat} :
    ∀ {l : List Nat}, y ∈ eraseNat x l ↔ y ∈ l ∧ y ≠ x := by
  intro l
  induction l with
  | nil => simp [eraseNat]
  | cons z zs ih =>
    by_cases h : z = x
    · rw [eraseNat, if_pos h, ih]
      subst h
      constructor
      · rintro ⟨hy, hn⟩
        exact ⟨List.mem_cons_of_mem _ hy, hn⟩
      · rintro ⟨hy, hn⟩
        rcases List.mem_cons.mp hy with rfl | hy
        · exact absurd rfl hn
        · exact ⟨hy, hn⟩
    · rw [eraseNat, if_neg h]
      constructor
      · intro hy
        rcases List.mem_cons.mp hy with rfl | hy
        · exact ⟨List.mem_cons_self _ _, fun hc => h hc⟩
        · obtain ⟨h1, h2⟩ := ih.mp hy
          exact ⟨List.mem_cons_of_mem _ h1, h2⟩
      · rintro ⟨hy, hn⟩
        rcases List.mem_cons.mp hy with rfl | hy
        · exact List.mem_cons_self _ _
        · exact List.mem_cons_of_mem _ (ih.mpr ⟨hy, hn⟩)

theorem mem_insertIfAbsent {x y : Nat} {l : List Nat}
    (h : y ∈ insertIfAbsent x l) : y = x ∨ y ∈ l := by
  unfold insertIfAbsent at h
  by_cases hm : memNat x l
  · rw [if_pos hm] at h; exact Or.inr h
  · rw [if_neg hm] at h
    rcases List.mem_cons.mp h with h | h
    · exact Or.inl h
    · exact Or.inr h

theorem mem_insertSorted {x y : Nat} :
    ∀ {l : List Nat}, y ∈ insertSorted x l ↔ y = x ∨ y ∈ l := by
  intro l
  induction l with
  | nil => simp [insertSorted]
  | cons z zs ih =>
    by_cases h : x ≤ z
    · simp [insertSorted, h]
    · simp only [insertSorted, if_neg h, List.mem_cons, ih]
      tauto

theorem mem_sortNat {y : Nat} : ∀ {l : List Nat}, y ∈ sortNat l ↔ y ∈ l := by
  intro l
  induction l with
  | nil => simp [sortNat]
  | cons z zs ih =>
    simp only [sortNat, List.foldr] at ih ⊢
    rw [mem_insertSorted, ih, List.mem_cons]

theorem findTx_some {txs : List Tx} {i : Nat} {t : Tx}
    (h : findTx txs i = some t) : t ∈ txs ∧ t.id = i := by
  induction txs with
  | nil => simp [findTx] at h
  | cons u us ih =>
    by_cases hu : u.id = i
    · simp only [findTx, if_pos hu] at h
      cases h
      exact ⟨List.mem_cons_self _ _, hu⟩
    · simp only [findTx, if_neg hu] at h
      obtain ⟨hm, hid⟩ := ih h
      exact ⟨List.mem_cons_of_mem _ hm, hid⟩

theorem findTx_none {txs : List Tx} {i : Nat}
    (h : findTx txs i = none) : ∀ t ∈ txs, t.id ≠ i := by
  induction txs with
  | nil => intro t ht; simp at ht
  | cons u us ih =>
    by_cases hu : u.id = i
    · simp [findTx, hu] at h
    · simp only [findTx, if_neg hu] at h
      intro t ht
      rcases List.mem_cons.mp ht with rfl | ht
      · exact hu
      · exact ih h t ht

theorem ids_setTxStatus (txs : List Tx) (i : Nat) (s : TxStatus) :
    (setTxStatus txs i s).map (·.id) = txs.map (·.id) := by
  induction txs with
  | nil => rfl
  | cons u us ih =>
    by_cases hu : u.id = i <;>
      simp [setTxStatus, hu, ih] at ih ⊢ <;> simpa [setTxStatus] using ih

theorem ids_setTxEndorsed (txs : List Tx) (i : Nat) :
    (setTxEndorsed txs i).map (·.id) = txs.map (·.id) := by
  induction txs with
  | nil => rfl
  | cons u us ih =>
    by_cases hu : u.id = i <;>
      simp [setTxEndorsed, hu, ih] at ih ⊢ <;> simpa [setTxEndorsed] using ih

theorem ids_markDispatched (txs : List Tx) (batch : List Nat) :
    (markDispatched txs batch).map (·.id) = txs.map (·.id) := by
  induction txs with
  | nil => rfl
  | cons u us ih =>
    by_cases hu : memNat u.id batch = true <;>
      simp [markDispatched, hu, ih] at ih ⊢ <;> simpa [markDispatched] using ih

theorem mem_setTxStatus_of_ne {txs : List Tx} {t : Tx} (ht : t ∈ txs)
    (i : Nat) (s : TxStatus) (hne : t.id ≠ i) : t ∈ setTxStatus txs i s := by
  unfold setTxStatus
  exact List.mem_map.mpr ⟨t, ht, by rw [if_neg hne]⟩

theorem blocked_witness_setTxStatus_blocked {txs : List Tx} {t : Tx}
    (ht : t ∈ txs) (hb : t.status = .blocked) (i : Nat) :
    ∃ u ∈ setTxStatus txs i .blocked, u.id = t.id ∧ u.status = .blocked := by
  by_cases hne : t.id = i
  · exact ⟨{ t with status := .blocked },
      List.mem_map.mpr ⟨t, ht, by rw [if_pos hne]⟩, rfl, rfl⟩
  · exact ⟨t, mem_setTxStatus_of_ne ht i .blocked hne, rfl, hb⟩

theorem seqInv_route (st : SeqState) (txId : Nat) (s : TxStatus)
    (hinv : SeqInv st) :
    SeqInv { st with
        txs := setTxStatus st.txs txId s
        blockedIndex := eraseNat txId st.blockedIndex } := by
  obtain ⟨hids, hidx⟩ := hinv
  refine ⟨by simpa [ids_setTxStatus] using hids, ?_⟩
  intro i hi
  obtain ⟨hmem, hne⟩ := mem_eraseNat.mp hi
  obtain ⟨t, ht, hid, hb⟩ := hidx i hmem
  exact ⟨t, mem_setTxStatus_of_ne ht txId s (fun hc => hne (hid ▸ hc ▸ rfl)), hid, hb⟩

theorem seqInv_block (st : SeqState) (txId : Nat) {t0 : Tx}
    (hfind : findTx st.txs txId = some t0) (hinv : SeqInv st) :
    SeqInv { st with
        txs := setTxStatus st.txs txId .blocked
        blockedIndex := insertIfAbsent txId st.blockedIndex } := by
  obtain ⟨hids, hidx⟩ := hinv
  obtain ⟨ht0, hid0⟩ := findTx_some hfind
  refine ⟨by simpa [ids_setTxStatus] using hids, ?_⟩
  intro i hi
  rcases mem_insertIfAbsent hi with rfl | hi
  · exact ⟨{ t0 with status := .blocked },
      List.mem_map.mpr ⟨t0, ht0, by rw [if_pos hid0]⟩, hid0, rfl⟩
  · obtain ⟨t, ht, hid, hb⟩ := hidx i hi
    obtain ⟨u, hu, huid, hub⟩ := blocked_witness_setTxStatus_blocked ht hb txId
    exact ⟨u, hu, huid.trans hid, hub⟩

theorem seqInv_assign (st : SeqState) (txId : Nat) (hinv : SeqInv st) :
    SeqInv (assignTransaction st txId).1 := by
  unfold assignTransaction
  cases hfind : findTx st.txs txId with
  | none => exact hinv
  | some t =>
    dsimp only
    cases hR : remoteOwners st t with
    | nil => exact seqInv_route st txId .assigned hinv
    | cons r rs =>
      cases rs with
      | nil => exact seqInv_route st txId (.delegated r) hinv
      | cons r2 rs2 => exact seqInv_block st txId hfind hinv

theorem seqInv_recomputeOne (st : SeqState) (txId : Nat) (hinv : SeqInv st) :
    SeqInv (recomputeBlockedOne st txId).1 := by
  unfold recomputeBlockedOne
  cases hfind : findTx st.txs txId with
  | none => exact hinv
  | some t =>
    dsimp only
    by_cases hb : t.status = .blocked
    · rw [if_pos hb]
      cases hR : remoteOwners st t with
      | nil => exact seqInv_route st txId .assigned hinv
      | cons r rs =>
        cases rs with
        | nil => exact seqInv_route st txId (.delegated r) hinv
        | cons r2 rs2 => exact hinv
    · rw [if_neg hb]; exact hinv

theorem seqInv_recomputeList (l : List Nat) :
    ∀ st : SeqState, SeqInv st → SeqInv (recomputeBlockedList st l).1 := by
  induction l with
  | nil => intro st h; exact h
  | cons i is ih =>
    intro st h
    exact ih _ (seqInv_recomputeOne st i h)

theorem seqInv_recompute (st : SeqState) (hinv : SeqInv st) :
    SeqInv (recomputeBlocked st).1 :=
  seqInv_recomputeList _ st hinv

theorem mem_batchStep {st : SeqState} {batch : List Nat} {i : Nat}
    (h : i ∈ batchStep st batch) :
    ∃ u ∈ st.txs, u.id = i ∧ u.status = .assigned := by
  unfold batchStep at h
  have h1 := List.mem_of_mem_filter h
  rw [mem_sortNat] at h1
  obtain ⟨u, hu, huid⟩ := List.mem_map.mp h1
  have hu2 := List.mem_of_mem_filter hu
  have helig := List.of_mem_filter hu
  have : (decide (u.status = TxStatus.assigned) && u.endorsed) = true := by
    have := Bool.and_elim_left helig
    exact this
  have hst : u.status = .assigned := by
    have := Bool.and_elim_left this
    simpa using this
  exact ⟨u, hu2, huid, hst⟩

theorem mem_computeBatchAux {st : SeqState} {P : Nat → Prop}
    (hstep : ∀ batch i, i ∈ batchStep st batch → P i) :
    ∀ (fuel : Nat) (batch : List Nat), (∀ i ∈ batch, P i) →
      ∀ i ∈ computeBatchAux fuel st batch, P i := by
  intro fuel
  induction fuel with
  | zero => intro batch hb i hi; exact hb i hi
  | succ n ih =>
    intro batch hb i hi
    simp only [computeBatchAux] at hi
    by_cases hnews : (batchStep st batch).isEmpty
    · rw [if_pos hnews] at hi; exact hb i hi
    · rw [if_neg hnews] at hi
      refine ih (batch ++ batchStep st batch) ?_ i hi
      intro j hj
      rcases List.mem_append.mp hj with hj | hj
      · exact hb j hj
      · exact hstep batch j hj

theorem mem_computeBatch {st : SeqState} {i : Nat} (h : i ∈ computeBatch st) :
    ∃ u ∈ st.txs, u.id = i ∧ u.status = .assigned := by
  refine mem_computeBatchAux
    (fun batch j hj => mem_batchStep hj) st.txs.length [] (by simp) i h

theorem seqInv_endorsed (st : SeqState) (txId : Nat) (hinv : SeqInv st) :
    SeqInv (onTransactionEndorsed st txId).1 := by
  obtain ⟨hids, hidx⟩ := hinv
  have hids1 : ((setTxEndorsed st.txs txId).map (·.id)).Nodup := by
    simpa [ids_setTxEndorsed] using hids
  have hidx1 : ∀ i ∈ st.blockedIndex,
      ∃ t ∈ setTxEndorsed st.txs txId, t.id = i ∧ t.status = .blocked := by
    intro i hi
    obtain ⟨t, ht, hid, hb⟩ := hidx i hi
    by_cases hne : t.id = txId
    · exact ⟨{ t with endorsed := true },
        List.mem_map.mpr ⟨t, ht, by rw [if_pos hne]⟩, hid, hb⟩
    · exact ⟨t, List.mem_map.mpr ⟨t, ht, by rw [if_neg hne]⟩, hid, hb⟩
  unfold onTransactionEndorsed
  cases hbatch : computeBatch { st with txs := setTxEndorsed st.txs txId } with
  | nil => exact ⟨hids1, hidx1⟩
  | cons b bs =>
    dsimp only
    refine ⟨by simpa [ids_markDispatched] using hids1, ?_⟩
    intro i hi
    obtain ⟨t, ht, hid, hb⟩ := hidx1 i hi
    have hnotin : memNat t.id (b :: bs) = false := by
      rcases Bool.eq_false_or_eq_true (memNat t.id (b :: bs)) with h | h
      swap
      · exact h
      · exfalso
        have hmem : t.id ∈ (b :: bs) := mem_memNat.mp h
        rw [← hbatch] at hmem
        obtain ⟨u, hu, huid, hust⟩ := mem_computeBatch hmem
        have : u = t := by
          refine List.inj_on_of_nodup_map hids1 hu ht ?_
          simp [huid]
        rw [this] at hust
        rw [hb] at hust
        exact absurd hust (by simp)
    refine ⟨t, ?_, hid, hb⟩
    unfold markDispatched
    exact List.mem_map.mpr ⟨t, ht, by rw [hnotin]; rfl⟩

theorem seqInv_assembled (st : SeqState) (txId nodeId : Nat)
    (inputs outputs : List Nat) (hinv : SeqInv st) :
    SeqInv (onTransactionAssembled st txId nodeId inputs outputs).1 := by
  obtain ⟨hids, hidx⟩ := hinv
  unfold onTransactionAssembled
  cases hfind : findTx st.txs txId with
  | some t => exact ⟨hids, hidx⟩
  | none =>
    constructor
    · rw [List.map_append]
      rw [List.nodup_append]
      refine ⟨hids, List.nodup_singleton _, ?_⟩
      intro x hx hy
      simp only [List.map_cons, List.map_nil, List.mem_singleton] at hy
      obtain ⟨t, ht, hid⟩ := List.mem_map.mp hx
      exact findTx_none hfind t ht (hid.trans hy)
    · intro i hi
      obtain ⟨t, ht, hid, hb⟩ := hidx i hi
      exact ⟨t, List.mem_append_left _ ht, hid, hb⟩

theorem seqInv_step (st : SeqState) (e : Event) (hinv : SeqInv st) :
    SeqInv (step st e).1 := by
  cases e with
  | assembled txId nodeId inputs outputs =>
    exact seqInv_assembled st txId nodeId inputs outputs hinv
  | assign txId => exact seqInv_assign st txId hinv
  | endorsed txId => exact seqInv_endorsed st txId hinv
  | delegatedEvt txId delegateNode =>
    exact seqInv_recompute _ hinv
  | confirmedEvt txId =>
    exact seqInv_recompute _ (seqInv_route st txId .confirmed hinv)
  | revertedEvt txId => exact seqInv_route st txId .reverted hinv

theorem seqInv_runEvents (es : List Event) :
    ∀ st : SeqState, SeqInv st → SeqInv (runEvents st es).1 := by
  induction es with
  | nil => intro st h; exact h
  | cons e es ih =>
    intro st h
    exact ih _ (seqInv_step st e h)

theorem runEvents_append (st : SeqState) (es1 es2 : List Event) :
    runEvents st (es1 ++ es2) =
      ((runEvents (runEvents st es1).1 es2).1,
        (runEvents st es1).2 ++ (runEvents (runEvents st es1).1 es2).2) := by
  induction es1 generalizing st with
  | nil => simp [runEvents]
  | cons e es ih =>
    simp only [List.cons_append, runEvents, List.append_eq]
    rw [ih]
    simp [List.append_assoc]

theorem seqInv_initial (n : Nat) : SeqInv (initialSeqState n) := by
  constructor
  · simp [initialSeqState]
  · intro i hi; simp [initialSeqState] at hi

/-! ## Endorsement gate lemmas -/

theorem gateLookup_eq_none_of_not_mem_keys (g : GateState) (s : Nat)
    (h : s ∉ gateKeys g) : gateLookup g s = none := by
  induction g with
  | nil => rfl
  | cons p rest ih =>
    simp only [gateKeys, List.map_cons, List.mem_cons] at h
    push_neg at h
    simp only [gateLookup, if_neg h.1]
    exact ih h.2

theorem gateLookup_eraseKey (g : GateState) (s s' : Nat) :
    gateLookup (gateEraseKey s g) s' =
      if s' = s then none else gateLookup g s' := by
  induction g with
  | nil => by_cases h : s' = s <;> simp [gateLookup, gateEraseKey, h]
  | cons p rest ih =>
    by_cases hp : p.1 = s
    · by_cases h : s' = s
      · subst h
        simp [gateEraseKey, hp, ih]
      · have : ¬ s' = p.1 := fun hc => h (hc.trans hp)
        simp [gateEraseKey, gateLookup, hp, ih, h, this]
    · by_cases hs : s' = p.1
      · have hss : ¬ s' = s := fun hc => hp (hs ▸ hc)
        simp [gateEraseKey, gateLookup, hp, hs, hss]
      · simp [gateEraseKey, gateLookup, hp, hs, ih]

theorem gateLookup_update (g : GateState) (s txId s' : Nat) :
    gateLookup (gateUpdate g s txId) s' =
      if s' = s then some txId else gateLookup g s' := by
  by_cases h : s' = s
  · simp [gateUpdate, gateLookup, h]
  · simp [gateUpdate, gateLookup, h, gateLookup_eraseKey]

theorem gateLookup_foldl_update (inputs : List Nat) (txId : Nat) :
    ∀ (g : GateState) (s : Nat),
      gateLookup (inputs.foldl (fun acc s' => gateUpdate acc s' txId) g) s =
        if s ∈ inputs then some txId else gateLookup g s := by
  induction inputs with
  | nil => intro g s; simp
  | cons x xs ih =>
    intro g s
    by_cases hmem : s ∈ xs
    · simp [List.foldl, ih, hmem]
    · by_cases hx : s = x
      · simp [List.foldl, ih, hmem, gateLookup_update, hx]
      · simp [List.foldl, ih, hmem, gateLookup_update, hx]

theorem gateLookup_revert (g : GateState) (hwf : GateWF g) (txId s : Nat) :
    gateLookup (onTransactionReverted g txId) s =
      if gateLookup g s = some txId then none else gateLookup g s := by
  induction g with
  | nil => simp [onTransactionReverted, gateLookup]
  | cons p rest ih =>
    have hwf' : GateWF rest := (List.nodup_cons.mp hwf).2
    have hp : p.1 ∉ gateKeys rest := (List.nodup_cons.mp hwf).1
    by_cases hs : s = p.1
    · subst hs
      by_cases ht : p.2 = txId
      · have hrest : gateLookup rest p.1 = none :=
          gateLookup_eq_none_of_not_mem_keys rest p.1 hp
        simp [onTransactionReverted, gateLookup, ht, ih hwf', hrest]
      · have : ¬ some p.2 = some txId := by simp [ht]
        simp [onTransactionReverted, gateLookup, ht, this]
    · by_cases ht : p.2 = txId
      · simp [onTransactionReverted, gateLookup, hs, ht, ih hwf']
      · simp [onTransactionReverted, gateLookup, hs, ht, ih hwf']

theorem mem_keys_eraseKey (g : GateState) (s k : Nat)
    (h : k ∈ gateKeys (gateEraseKey s g)) : k ∈ gateKeys g := by
  induction g with
  | nil => simp [gateEraseKey, gateKeys] at h
  | cons p rest ih =>
    by_cases hp : p.1 = s
    · simp only [gateEraseKey, if_pos hp] at h
      exact List.mem_cons_of_mem _ (ih h)
    · simp only [gateEraseKey, if_neg hp, gateKeys, List.map_cons,
        List.mem_cons] at h ⊢
      rcases h with h | h
      · exact Or.inl h
      · exact Or.inr (ih h)

theorem not_mem_keys_eraseKey (g : GateState) (s : Nat) :
    s ∉ gateKeys (gateEraseKey s g) := by
  induction g with
  | nil => simp [gateEraseKey, gateKeys]
  | cons p rest ih =>
    by_cases hp : p.1 = s
    · simpa [gateEraseKey, hp] using ih
    · simp only [gateEraseKey, if_neg hp, gateKeys, List.map_cons, List.mem_cons]
      rintro (h | h)
      · exact hp h.symm
      · exact ih h

theorem gateWF_eraseKey (g : GateState) (s : Nat) (hwf : GateWF g) :
    GateWF (gateEraseKey s g) := by
  induction g with
  | nil => simpa [gateEraseKey] using hwf
  | cons p rest ih =>
    have hwf' : GateWF rest := (List.nodup_cons.mp hwf).2
    have hp : p.1 ∉ gateKeys rest := (List.nodup_cons.mp hwf).1
    by_cases hps : p.1 = s
    · simpa [gateEraseKey, hps] using ih hwf'
    · simp only [gateEraseKey, if_neg hps, GateWF, gateKeys, List.map_cons,
        List.nodup_cons]
      exact ⟨fun hc => hp (mem_keys_eraseKey rest s p.1 hc), ih hwf'⟩

theorem gateWF_update (g : GateState) (s txId : Nat) (hwf : GateWF g) :
    GateWF (gateUpdate g s txId) := by
  simp only [gateUpdate, GateWF, gateKeys, List.map_cons, List.nodup_cons]
  exact ⟨not_mem_keys_eraseKey g s, gateWF_eraseKey g s hwf⟩

theorem gateWF_foldl_update (inputs : List Nat) (txId : Nat) :
    ∀ g : GateState, GateWF g →
      GateWF (inputs.foldl (fun acc s => gateUpdate acc s txId) g) := by
  induction inputs with
  | nil => intro g hwf; simpa using hwf
  | cons x xs ih =>
    intro g hwf
    exact ih _ (gateWF_update g x txId hwf)

theorem gateWF_approveEndorsement (g : GateState) (txId : Nat)
    (inputs : List Nat) (hwf : GateWF g) :
    GateWF (approveEndorsement g txId inputs).2 := by
  unfold approveEndorsement
  by_cases h : approveOk g txId inputs <;>
    simp [h, gateWF_foldl_update inputs txId g hwf, hwf]

theorem gateWF_revert (g : GateState) (txId : Nat) (hwf : GateWF g) :
    GateWF (onTransactionReverted g txId) := by
  induction g with
  | nil => simpa [onTransactionReverted] using hwf
  | cons p rest ih =>
    have hwf' : GateWF rest := (List.nodup_cons.mp hwf).2
    have hp : p.1 ∉ gateKeys rest := (List.nodup_cons.mp hwf).1
    have hmem : ∀ k, k ∈ gateKeys (onTransactionReverted rest txId) →
        k ∈ gateKeys rest := by
      clear ih hwf hwf' hp
      induction rest with
      | nil => intro k h; simpa [onTransactionReverted] using h
      | cons q qs ihq =>
        intro k h
        by_cases hq : q.2 = txId
        · simp only [onTransactionReverted, if_pos hq] at h
          exact List.mem_cons_of_mem _ (ihq k h)
        · simp only [onTransactionReverted, if_neg hq, gateKeys,
            List.map_cons, List.mem_cons] at h ⊢
          rcases h with h | h
          · exact Or.inl h
          · exact Or.inr (ihq k h)
    by_cases ht : p.2 = txId
    · simpa [onTransactionReverted, ht] using ih hwf'
    · simp only [onTransactionReverted, if_neg ht, GateWF, gateKeys,
        List.map_cons, List.nodup_cons]
      exact ⟨fun hc => hp (hmem p.1 hc), ih hwf'⟩

theorem approveEndorsement_fst (g : GateState) (txId : Nat) (inputs : List Nat) :
    (approveEndorsement g txId inputs).1 = approveOk g txId inputs := by
  unfold approveEndorsement
  by_cases h : approveOk g txId inputs <;> simp [h]

theorem approveEndorsement_snd_of_approved (g : GateState) (txId : Nat)
    (inputs : List Nat) (h : approveOk g txId inputs = true) :
    (approveEndorsement g txId inputs).2 =
      inputs.foldl (fun acc s => gateUpdate acc s txId) g := by
  unfold approveEndorsement
  rw [if_pos h]

theorem approveOk_iff (g : GateState) (txId : Nat) (inputs : List Nat) :
    approveOk g txId inputs = true ↔
      ∀ s ∈ inputs, gateLookup g s = none ∨ gateLookup g s = some txId := by
  unfold approveOk
  rw [List.all_eq_true]
  constructor
  · intro h s hs
    have := h s hs
    cases hl : gateLookup g s with
    | none => exact Or.inl rfl
    | some t =>
      rw [hl] at this
      simp only [decide_eq_true_eq] at this
      exact Or.inr (by rw [this])
  · intro h s hs
    rcases h s hs with hl | hl <;> simp [hl]

/-! ## Registry upsert lemmas -/

theorem map_rowKey_upsert (table : List TransportDetailsRow)
    (e : TransportDetailsRow) :
    ((table.map fun r =>
        if rowKey r = rowKey e then { r with details := e.details } else r).map
      rowKey) = table.map rowKey := by
  induction table with
  | nil => rfl
  | cons r rows ih =>
    by_cases hr : rowKey r = rowKey e
    · have h2 : rowKey { r with details := e.details } = rowKey r := by
        simp [rowKey]
      simp [hr, h2, ih]
    · simp [hr, ih]

theorem getDetails_upsert_match (table : List TransportDetailsRow)
    (e : TransportDetailsRow)
    (h : (table.any fun r => decide (rowKey r = rowKey e)) = true) :
    getDetails
      (table.map fun r =>
        if rowKey r = rowKey e then { r with details := e.details } else r)
      (rowKey e) = some e.details := by
  induction table with
  | nil => simp at h
  | cons r rows ih =>
    by_cases hr : rowKey r = rowKey e
    · have h2 : rowKey { r with details := e.details } = rowKey e := by
        rw [show rowKey { r with details := e.details } = rowKey r from by
          simp [rowKey]]
        exact hr

      simp [getDetails, List.find?, hr, h2]
    · have h3 : (rows.any fun r => decide (rowKey r = rowKey e)) = true := by
        simpa [List.any_cons, hr] using h
      simpa [getDetails, List.find?, hr] using ih h3

theorem any_map_upsert (table : List TransportDetailsRow)
    (e : TransportDetailsRow) :
    ((table.map fun r =>
        if rowKey r = rowKey e then { r with details := e.details } else r).any
      fun r => decide (rowKey r = rowKey e)) =
    (table.any fun r => decide (rowKey r = rowKey e)) := by
  induction table with
  | nil => rfl
  | cons r rows ih =>
    by_cases hr : rowKey r = rowKey e
    · have h2 : rowKey { r with details := e.details } = rowKey e := by
        rw [show rowKey { r with details := e.details } = rowKey r from by
          simp [rowKey]]
        exact hr
      simp [hr, h2, ih]
    · simp [hr, ih]

theorem upsert_map_fix (table : List TransportDetailsRow)
    (e : TransportDetailsRow) :
    ((table.map fun r =>
        if rowKey r = rowKey e then { r with details := e.details } else r).map
      fun r =>
        if rowKey r = rowKey e then { r with details := e.details } else r) =
    table.map fun r =>
      if rowKey r = rowKey e then { r with details := e.details } else r := by
  induction table with
  | nil => rfl
  | cons r rows ih =>
    by_cases hr : rowKey r = rowKey e
    · have h2 : rowKey { r with details := e.details } = rowKey e := by
        rw [show rowKey { r with details := e.details } = rowKey r from by
          simp [rowKey]]
        exact hr
      simp only [List.map_cons, if_pos hr, ih]
      rw [if_pos h2]
    · simp only [List.map_cons, if_neg hr, ih]

theorem upsert_map_of_no_match (table : List TransportDetailsRow)
    (e : TransportDetailsRow)
    (h : (table.any fun r => decide (rowKey r = rowKey e)) = false) :
    (table.map fun r =>
      if rowKey r = rowKey e then { r with details := e.details } else r) =
    table := by
  induction table with
  | nil => rfl
  | cons r rows ih =>
    simp only [List.any_cons, Bool.or_eq_false_iff] at h
    have hr : ¬ rowKey r = rowKey e := by simpa using h.1
    simp only [List.map_cons, if_neg hr, ih h.2]

theorem upsert_self_eta (e : TransportDetailsRow) :
    ({ e with details := e.details } : TransportDetailsRow) = e := by
  rcases e with ⟨a, b, c, d⟩
  rfl

theorem upsert_idem (table : List TransportDetailsRow) (e : TransportDetailsRow) :
    upsertTransportDetail (upsertTransportDetail table e) e =
      upsertTransportDetail table e := by
  unfold upsertTransportDetail
  by_cases h : (table.any fun r => decide (rowKey r = rowKey e)) = true
  · rw [if_pos h, if_pos (by rw [any_map_upsert]; exact h), upsert_map_fix]
  · have hfalse : (table.any fun r => decide (rowKey r = rowKey e)) = false :=
      Bool.eq_false_iff.mpr h
    rw [if_neg h]
    have hany2 : ((table ++ [e]).any fun r => decide (rowKey r = rowKey e)) = true := by
      simp [List.any_append]
    rw [if_pos hany2, List.map_append]
    rw [upsert_map_of_no_match table e hfalse]
    simp [upsert_self_eta]

/-! ## Claim theorems -/

set_option maxHeartbeats 2000000 in
/-- Claim C1: for a local chain of two transactions on one node, where the
second transaction's input state is an output state of the first, endorsing
the second first produces no dispatch, and the subsequent endorsement of
the first produces exactly one dispatch call containing both transactions
with the producer ordered before the consumer. -/
theorem sequencer_local_chain_single_dispatch
    (n t1 t2 s1 s2 : Nat) (h12 : t1 ≠ t2) :
    (runEvents (initialSeqState n)
      [.assembled t1 n [] [s1], .assembled t2 n [s1] [s2], .assign t1,
       .assign t2, .endorsed t2]).2 = [] ∧
    (runEvents (initialSeqState n)
      [.assembled t1 n [] [s1], .assembled t2 n [s1] [s2], .assign t1,
       .assign t2, .endorsed t2, .endorsed t1]).2 =
      [Action.dispatch [t1, t2]] := by
  by_cases hle : t1 ≤ t2 <;>
  · constructor <;>
    simp [runEvents, step, onTransactionAssembled, assignTransaction,
      onTransactionEndorsed, findTx, setTxStatus, setTxEndorsed, remoteOwners,
      depsOf, currentOwner, delegationLookup, inGraph, anyIntersect, memNat,
      dedupNat, eraseNat, insertIfAbsent, computeBatch, computeBatchAux,
      batchStep, eligibleForDispatch, depSatisfied, markDispatched, sortNat,
      insertSorted, initialSeqState, h12, h12.symm, hle]

/-- Claim C1 witness at concrete inputs. -/
theorem sequencer_local_chain_single_dispatch_witness :
    (1 ≠ 2) ∧
    (runEvents (initialSeqState 5)
      [.assembled 1 5 [] [10], .assembled 2 5 [10] [11], .assign 1,
       .assign 2, .endorsed 2]).2 = [] ∧
    (runEvents (initialSeqState 5)
      [.assembled 1 5 [] [10], .assembled 2 5 [10] [11], .assign 1,
       .assign 2, .endorsed 2, .endorsed 1]).2 =
      [Action.dispatch [1, 2]] := by
  have h := sequencer_local_chain_single_dispatch 5 1 2 10 11 (by decide)
  exact ⟨by decide, h.1, h.2⟩

set_option maxHeartbeats 2000000 in
/-- Claim C2: when a locally assembled transaction has exactly one
dependency owned by a single remote node, assigning it emits exactly one
delegation request naming the transaction, the local node as delegating
node and the remote owner as delegate node; the local sequencer never
dispatches it, even after both transactions are endorsed. -/
theorem sequencer_remote_dependency_delegates
    (n r t1 t2 s : Nat) (h12 : t1 ≠ t2) (hr : r ≠ n) :
    (runEvents (initialSeqState n)
      [.assembled t1 r [] [s], .assembled t2 n [s] [], .assign t2]).2 =
      [Action.delegate t2 n r] ∧
    (runEvents (initialSeqState n)
      [.assembled t1 r [] [s], .assembled t2 n [s] [], .assign t2,
       .endorsed t1, .endorsed t2]).2 = [Action.delegate t2 n r] := by
  constructor <;>
  simp [runEvents, step, onTransactionAssembled, assignTransaction,
    onTransactionEndorsed, findTx, setTxStatus, setTxEndorsed, remoteOwners,
    depsOf, currentOwner, delegationLookup, inGraph, anyIntersect, memNat,
    dedupNat, eraseNat, insertIfAbsent, computeBatch, computeBatchAux,
    batchStep, eligibleForDispatch, depSatisfied, markDispatched, sortNat,
    insertSorted, initialSeqState, h12, h12.symm, hr]

/-- Claim C2 witness at concrete inputs. -/
theorem sequencer_remote_dependency_delegates_witness :
    (1 ≠ 2) ∧ (6 ≠ 5) ∧
    (runEvents (initialSeqState 5)
      [.assembled 1 6 [] [10], .assembled 2 5 [10] [], .assign 2]).2 =
      [Action.delegate 2 5 6] ∧
    (runEvents (initialSeqState 5)
      [.assembled 1 6 [] [10], .assembled 2 5 [10] [], .assign 2,
       .endorsed 1, .endorsed 2]).2 = [Action.delegate 2 5 6] := by
  have h := sequencer_remote_dependency_delegates 5 6 1 2 10 (by decide) (by decide)
  exact ⟨by decide, by decide, h.1, h.2⟩

set_option maxHeartbeats 2000000 in
/-- Claim C3: a locally assembled transaction with dependencies owned by
two distinct remote nodes is blocked on assignment (one blocked event,
no delegation, no dispatch); once a confirmation leaves exactly one
remote owning node, the sequencer delegates the blocked transaction to
the remaining remote node. -/
theorem sequencer_two_remote_deps_block_then_delegate
    (n r1 r2 d1 d2 t3 s1 s2 : Nat)
    (h12 : d1 ≠ d2) (h13 : d1 ≠ t3) (h23 : d2 ≠ t3) (hss : s1 ≠ s2)
    (hr1 : r1 ≠ n) (hr2 : r2 ≠ n) (hrr : r1 ≠ r2) :
    (runEvents (initialSeqState n)
      [.assembled d1 r1 [] [s1], .assembled d2 r2 [] [s2],
       .assembled t3 n [s1, s2] [], .assign t3]).2 =
      [Action.blockedEvent t3] ∧
    (runEvents (initialSeqState n)
      [.assembled d1 r1 [] [s1], .assembled d2 r2 [] [s2],
       .assembled t3 n [s1, s2] [], .assign t3,
       .endorsed d1, .endorsed d2, .endorsed t3, .confirmedEvt d2]).2 =
      [Action.blockedEvent t3, Action.delegate t3 n r1] := by
  have hpre : runEvents (initialSeqState n)
      [.assembled d1 r1 [] [s1], .assembled d2 r2 [] [s2],
       .assembled t3 n [s1, s2] [], .assign t3] =
      (⟨n, [⟨d1, r1, [], [s1], false, .assembled⟩,
            ⟨d2, r2, [], [s2], false, .assembled⟩,
            ⟨t3, n, [s1, s2], [], false, .blocked⟩], [], [t3]⟩,
        [Action.blockedEvent t3]) := by
    simp [runEvents, step, onTransactionAssembled, assignTransaction,
      findTx, setTxStatus, remoteOwners, depsOf, currentOwner,
      delegationLookup, inGraph, anyIntersect, memNat, dedupNat, eraseNat,
      insertIfAbsent, initialSeqState,
      h12, h12.symm, h13, h13.symm, h23, h23.symm, hss, hss.symm,
      hr1, hr2, hrr, hrr.symm]
  have hrest : (runEvents
      (⟨n, [⟨d1, r1, [], [s1], false, .assembled⟩,
            ⟨d2, r2, [], [s2], false, .assembled⟩,
            ⟨t3, n, [s1, s2], [], false, .blocked⟩], [], [t3]⟩ : SeqState)
      [.endorsed d1, .endorsed d2, .endorsed t3, .confirmedEvt d2]).2 =
      [Action.delegate t3 n r1] := by
    simp [runEvents, step, onTransactionEndorsed, onTransactionConfirmed,
      recomputeBlocked, recomputeBlockedList, recomputeBlockedOne, findTx,
      setTxStatus, setTxEndorsed, remoteOwners, depsOf, currentOwner,
      delegationLookup, inGraph, anyIntersect, memNat, dedupNat, eraseNat,
      insertIfAbsent, computeBatch, computeBatchAux, batchStep,
      eligibleForDispatch, depSatisfied, markDispatched, sortNat,
      insertSorted,
      h12, h12.symm, h13, h13.symm, h23, h23.symm, hss, hss.symm,
      hr1, hr2, hrr, hrr.symm]
  constructor
  · rw [hpre]
  · rw [show ([.assembled d1 r1 [] [s1], .assembled d2 r2 [] [s2],
        .assembled t3 n [s1, s2] [], .assign t3,
        .endorsed d1, .endorsed d2, .endorsed t3, .confirmedEvt d2] :
          List Event) =
      [.assembled d1 r1 [] [s1], .assembled d2 r2 [] [s2],
       .assembled t3 n [s1, s2] [], .assign t3] ++
      [.endorsed d1, .endorsed d2, .endorsed t3, .confirmedEvt d2] from rfl,
      runEvents_append, hpre]
    simp [hrest]

/-- Claim C3 witness at concrete inputs. -/
theorem sequencer_two_remote_deps_block_then_delegate_witness :
    (1 ≠ 2) ∧ (1 ≠ 3) ∧ (2 ≠ 3) ∧ (10 ≠ 11) ∧ (6 ≠ 5) ∧ (7 ≠ 5) ∧ (6 ≠ 7) ∧
    (runEvents (initialSeqState 5)
      [.assembled 1 6 [] [10], .assembled 2 7 [] [11],
       .assembled 3 5 [10, 11] [], .assign 3]).2 = [Action.blockedEvent 3] ∧
    (runEvents (initialSeqState 5)
      [.assembled 1 6 [] [10], .assembled 2 7 [] [11],
       .assembled 3 5 [10, 11] [], .assign 3,
       .endorsed 1, .endorsed 2, .endorsed 3, .confirmedEvt 2]).2 =
      [Action.blockedEvent 3, Action.delegate 3 5 6] := by
  have h := sequencer_two_remote_deps_block_then_delegate 5 6 7 1 2 3 10 11
    (by decide) (by decide) (by decide) (by decide) (by decide) (by decide)
    (by decide)
  exact ⟨by decide, by decide, by decide, by decide, by decide, by decide,
    by decide, h.1, h.2⟩

set_option maxHeartbeats 2000000 in
/-- Claim C4: a locally assembled transaction whose single dependency was
assembled remotely is delegated, on assignment, to the dependency's
observed delegate when this node has seen the delegation, and to the
dependency's assembling node otherwise; a transaction delegated to this
node whose dependency is remotely owned is delegated onward (the
forwarding responsibility). -/
theorem sequencer_transitive_delegation
    (n r1 r2 r3 t1 t2 t3 t4 sA sB sC : Nat)
    (h12 : t1 ≠ t2) (h13 : t1 ≠ t3) (h23 : t2 ≠ t3)
    (h14 : t1 ≠ t4) (h24 : t2 ≠ t4) (h34 : t3 ≠ t4)
    (hAB : sA ≠ sB) (hr1 : r1 ≠ n) (hr2 : r2 ≠ n) :
    (runEvents (initialSeqState n)
      [.assembled t1 r1 [] [sA], .assembled t2 r2 [sA] [sB],
       .delegatedEvt t2 r1, .assembled t3 n [sB] [], .assign t3]).2 =
      [Action.delegate t3 n r1] ∧
    (runEvents (initialSeqState n)
      [.assembled t1 r1 [] [sA], .assembled t2 r2 [sA] [sB],
       .assembled t3 n [sB] [], .assign t3]).2 =
      [Action.delegate t3 n r2] ∧
    (runEvents (initialSeqState n)
      [.assembled t1 r1 [] [sA], .assembled t2 r2 [sA] [sB],
       .assembled t3 n [sB] [], .assign t3,
       .assembled t4 r3 [sB] [sC], .assign t4]).2 =
      [Action.delegate t3 n r2, Action.delegate t4 n r2] := by
  refine ⟨?_, ?_, ?_⟩ <;>
  simp [runEvents, step, onTransactionAssembled, assignTransaction,
    onTransactionEndorsed, onTransactionDelegated, recomputeBlocked,
    recomputeBlockedList, recomputeBlockedOne, findTx, setTxStatus,
    setTxEndorsed, remoteOwners, depsOf, currentOwner, delegationLookup,
    inGraph, anyIntersect, memNat, dedupNat, eraseNat, insertIfAbsent,
    computeBatch, computeBatchAux, batchStep, eligibleForDispatch,
    depSatisfied, markDispatched, sortNat, insertSorted, initialSeqState,
    h12, h12.symm, h13, h13.symm, h23, h23.symm, h14, h14.symm,
    h24, h24.symm, h34, h34.symm, hAB, hAB.symm, hr1, hr2]

/-- Claim C4 witness at concrete inputs. -/
theorem sequencer_transitive_delegation_witness :
    (1 ≠ 2) ∧ (1 ≠ 3) ∧ (2 ≠ 3) ∧ (1 ≠ 4) ∧ (2 ≠ 4) ∧ (3 ≠ 4) ∧
    (10 ≠ 11) ∧ (6 ≠ 5) ∧ (7 ≠ 5) ∧
    (runEvents (initialSeqState 5)
      [.assembled 1 6 [] [10], .assembled 2 7 [10] [11],
       .delegatedEvt 2 6, .assembled 3 5 [11] [], .assign 3]).2 =
      [Action.delegate 3 5 6] ∧
    (runEvents (initialSeqState 5)
      [.assembled 1 6 [] [10], .assembled 2 7 [10] [11],
       .assembled 3 5 [11] [], .assign 3]).2 = [Action.delegate 3 5 7] ∧
    (runEvents (initialSeqState 5)
      [.assembled 1 6 [] [10], .assembled 2 7 [10] [11],
       .assembled 3 5 [11] [], .assign 3,
       .assembled 4 8 [11] [12], .assign 4]).2 =
      [Action.delegate 3 5 7, Action.delegate 4 5 7] := by
  have h := sequencer_transitive_delegation 5 6 7 8 1 2 3 4 10 11 12
    (by decide) (by decide) (by decide) (by decide) (by decide) (by decide)
    (by decide) (by decide) (by decide)
  exact ⟨by decide, by decide, by decide, by decide, by decide, by decide,
    by decide, by decide, by decide, h.1, h.2.1, h.2.2⟩

/-- Claim C5: `ApproveEndorsement` approves iff no input state is recorded
for a different non-reverted transaction; approval records every input
state, so a later request for a different transaction sharing a state is
rejected; and `OnTransactionReverted` removes the reverted transaction's
recordings, so a later request over those states is approved again. -/
theorem endorsement_gate_double_spend_and_revert
    (g : GateState) (hwf : GateWF g) (t1 t2 : Nat) (i1 i2 : List Nat) :
    ((approveEndorsement g t1 i1).1 = true ↔
      ∀ s ∈ i1, gateLookup g s = none ∨ gateLookup g s = some t1) ∧
    (∀ s, s ∈ i1 → s ∈ i2 → t2 ≠ t1 →
      (approveEndorsement g t1 i1).1 = true →
      (approveEndorsement (approveEndorsement g t1 i1).2 t2 i2).1 = false) ∧
    ((∀ s ∈ i2, gateLookup g s = none ∨ gateLookup g s = some t1) →
      (approveEndorsement (onTransactionReverted g t1) t2 i2).1 = true) := by
  refine ⟨?_, ?_, ?_⟩
  · rw [approveEndorsement_fst]
    exact approveOk_iff g t1 i1
  · intro s hs1 hs2 hne happ
    rw [approveEndorsement_fst] at happ ⊢
    rw [approveEndorsement_snd_of_approved g t1 i1 happ]
    apply Bool.eq_false_iff.mpr
    intro hok
    have hall := (approveOk_iff _ t2 i2).mp hok s hs2
    rw [gateLookup_foldl_update i1 t1 g s, if_pos hs1] at hall
    rcases hall with hc | hc
    · exact Option.noConfusion hc
    · exact hne (Option.some.inj hc).symm
  · intro hfree
    rw [approveEndorsement_fst]
    rw [approveOk_iff]
    intro s hs
    left
    rw [gateLookup_revert g hwf t1 s]
    rcases hfree s hs with h | h
    · rw [h]; simp
    · rw [h]; simp

/-- Claim C5 witness at concrete inputs. -/
theorem endorsement_gate_double_spend_and_revert_witness :
    GateWF ([] : GateState) ∧
    GateWF ((approveEndorsement [] 1 [7]).2) ∧ (7 ∈ [7]) ∧ (2 ≠ 1) ∧
    (approveEndorsement [] 1 [7]).1 = true ∧
    (approveEndorsement (approveEndorsement [] 1 [7]).2 2 [7]).1 = false ∧
    (approveEndorsement
      (onTransactionReverted ((approveEndorsement [] 1 [7]).2) 1) 2 [7]).1 =
      true := by
  have h0 := endorsement_gate_double_spend_and_revert [] (by decide) 1 2 [7] [7]
  have h1 := endorsement_gate_double_spend_and_revert
    ((approveEndorsement [] 1 [7]).2) (by decide) 1 2 [7] [7]
  refine ⟨by decide, by decide, by decide, by decide, ?_, ?_, ?_⟩
  · exact h0.1.mpr (by decide)
  · exact h0.2.1 7 (by decide) (by decide) (by decide) (h0.1.mpr (by decide))
  · exact h1.2.2 (by decide)

/-- Claim C6: the contention resolver is pure and order-independent: for
any hash parameter and bit policy the winner is one of the two contending
transactions, swapping the arguments gives the same winner, and any two
honest nodes evaluating it on the same arguments obtain the same winner. -/
theorem contention_resolver_deterministic_symmetric
    (H : Nat → Nat → Nat → Nat) (bitIndex stateId a b n₁ n₂ : Nat) :
    (resolveWinner H bitIndex stateId a b = a ∨
      resolveWinner H bitIndex stateId a b = b) ∧
    resolveWinner H bitIndex stateId a b = resolveWinner H bitIndex stateId b a ∧
    resolveOnNode n₁ H bitIndex stateId a b =
      resolveOnNode n₂ H bitIndex stateId a b := by
  refine ⟨?_, ?_, rfl⟩
  · unfold resolveWinner
    by_cases h : (H stateId (min a b) (max a b)).testBit bitIndex
    · rw [if_pos h]
      exact max_choice a b
    · rw [if_neg h]
      exact min_choice a b
  · unfold resolveWinner
    rw [Nat.min_comm b a, Nat.max_comm b a]

/-- Claim C7: after any sequence of events, no transaction that is in the
delegated state is still recorded in the blocked-transactions index: the
index entry is removed at the transition out of the blocked state. -/
theorem blocked_index_cleared_after_delegation
    (n : Nat) (es : List Event) (t : Tx) (dn : Nat)
    (ht : t ∈ (runEvents (initialSeqState n) es).1.txs)
    (hst : t.status = .delegated dn) :
    t.id ∉ (runEvents (initialSeqState n) es).1.blockedIndex := by
  intro hmem
  obtain ⟨hids, hidx⟩ := seqInv_runEvents es (initialSeqState n) (seqInv_initial n)
  obtain ⟨u, hu, huid, hub⟩ := hidx t.id hmem
  have hut : u = t := List.inj_on_of_nodup_map hids hu ht huid
  rw [hut, hst] at hub
  exact absurd hub (by simp)

/-- Claim C7 witness: the blocked-then-delegated transaction of the
two-remote-dependencies scenario is not in the blocked index. -/
theorem blocked_index_cleared_after_delegation_witness :
    (⟨3, 5, [10, 11], [], false, .delegated 6⟩ : Tx) ∈
      (runEvents (initialSeqState 5)
        [.assembled 1 6 [] [10], .assembled 2 7 [] [11],
         .assembled 3 5 [10, 11] [], .assign 3, .confirmedEvt 2]).1.txs ∧
    (⟨3, 5, [10, 11], [], false, .delegated 6⟩ : Tx).status = .delegated 6 ∧
    (⟨3, 5, [10, 11], [], false, .delegated 6⟩ : Tx).id ∉
      (runEvents (initialSeqState 5)
        [.assembled 1 6 [] [10], .assembled 2 7 [] [11],
         .assembled 3 5 [10, 11] [], .assign 3, .confirmedEvt 2]).1.blockedIndex := by
  refine ⟨by decide, by decide, ?_⟩
  exact blocked_index_cleared_after_delegation 5
    [.assembled 1 6 [] [10], .assembled 2 7 [] [11],
     .assembled 3 5 [10, 11] [], .assign 3, .confirmedEvt 2]
    ⟨3, 5, [10, 11], [], false, .delegated 6⟩ 6 (by decide) (by decide)

/-- Claim C8 counterexample: neither the wire `Message` of
`to_transport.proto` nor the outbound message built by the transport
writer carries a sender-node field, refuting the claim that every
transport message carries a `senderNode` header distinct from the
reply-to node. -/
theorem transport_message_no_sender_field :
    ¬ ("sender_node" ∈ messageProtoFields ∨
       "senderNode" ∈ messageProtoFields ∨
       "senderNode" ∈ transportMessageFields) := by
  decide

/-- Claim C8 (amended): every transport message carries messageId,
optional correlationId, component, destinationNode (`node`), replyToNode
(`reply_to`), messageType and payload, with no separate sender field;
delegation-request and endorsement-request messages identify the sending
node only through `replyTo`, which the writer sets to its own node id,
and address the remote node through `node`. -/
theorem transport_message_header_fields
    (nodeID delegateNodeId targetNode : String) (payload : List Nat) :
    messageProtoFields =
      ["message_id", "correlation_id", "component", "node", "reply_to",
       "message_type", "payload"] ∧
    "sender_node" ∉ messageProtoFields ∧
    (sendDelegationRequestMessage nodeID delegateNodeId payload).messageType =
      "DelegationRequest" ∧
    (sendDelegationRequestMessage nodeID delegateNodeId payload).node =
      delegateNodeId ∧
    (sendDelegationRequestMessage nodeID delegateNodeId payload).replyTo =
      nodeID ∧
    (sendEndorsementRequestMessage nodeID targetNode payload).messageType =
      "EndorsementRequest" ∧
    (sendEndorsementRequestMessage nodeID targetNode payload).node =
      targetNode ∧
    (sendEndorsementRequestMessage nodeID targetNode payload).replyTo =
      nodeID :=
  ⟨rfl, by decide, rfl, rfl, rfl, rfl, rfl, rfl⟩

/-- Claim C9: upserting a row whose (registry, node, transport) key equals
an existing row's key replaces only the stored details (latest write
wins) — the key columns and the unrelated rows are unchanged — and
re-upserting an identical entry leaves the table unchanged. -/
theorem registry_upsert_last_write_wins_idempotent
    (table : List TransportDetailsRow) (e : TransportDetailsRow) :
    ((table.any fun r => decide (rowKey r = rowKey e)) = true →
      getDetails (upsertTransportDetail table e) (rowKey e) = some e.details ∧
      (upsertTransportDetail table e).map rowKey = table.map rowKey ∧
      ∀ r ∈ table, rowKey r ≠ rowKey e → r ∈ upsertTransportDetail table e) ∧
    upsertTransportDetail (upsertTransportDetail table e) e =
      upsertTransportDetail table e := by
  constructor
  · intro h
    refine ⟨?_, ?_, ?_⟩
    · unfold upsertTransportDetail
      rw [if_pos h]
      exact getDetails_upsert_match table e h
    · unfold upsertTransportDetail
      rw [if_pos h]
      exact map_rowKey_upsert table e
    · intro r hr hne
      unfold upsertTransportDetail
      rw [if_pos h]
      exact List.mem_map.mpr ⟨r, hr, by rw [if_neg hne]⟩
  · exact upsert_idem table e

/-- Claim C9 witness at concrete inputs. -/
theorem registry_upsert_last_write_wins_idempotent_witness :
    (([⟨"reg", "n1", "grpc", "old"⟩, ⟨"reg", "n2", "grpc", "x"⟩] :
        List TransportDetailsRow).any fun r =>
      decide (rowKey r = rowKey ⟨"reg", "n1", "grpc", "new"⟩)) = true ∧
    getDetails
      (upsertTransportDetail
        [⟨"reg", "n1", "grpc", "old"⟩, ⟨"reg", "n2", "grpc", "x"⟩]
        ⟨"reg", "n1", "grpc", "new"⟩)
      (rowKey ⟨"reg", "n1", "grpc", "new"⟩) = some "new" ∧
    upsertTransportDetail
      (upsertTransportDetail
        [⟨"reg", "n1", "grpc", "old"⟩, ⟨"reg", "n2", "grpc", "x"⟩]
        ⟨"reg", "n1", "grpc", "new"⟩)
      ⟨"reg", "n1", "grpc", "new"⟩ =
      upsertTransportDetail
        [⟨"reg", "n1", "grpc", "old"⟩, ⟨"reg", "n2", "grpc", "x"⟩]
        ⟨"reg", "n1", "grpc", "new"⟩ := by
  have h := registry_upsert_last_write_wins_idempotent
    [⟨"reg", "n1", "grpc", "old"⟩, ⟨"reg", "n2", "grpc", "x"⟩]
    ⟨"reg", "n1", "grpc", "new"⟩
  exact ⟨by decide, (h.1 (by decide)).1, h.2⟩

set_option maxHeartbeats 2000000 in
/-- Claim C10: a transaction whose only dependency has been dispatched but
not yet confirmed is not blocked by it: once assigned and endorsed it is
dispatched immediately in its own single-element batch, not re-batched
with the already-dispatched predecessor. -/
theorem sequencer_dispatched_dependency_not_blocking
    (n t1 t2 s : Nat) (h12 : t1 ≠ t2) :
    (runEvents (initialSeqState n)
      [.assembled t1 n [] [s], .assign t1, .endorsed t1,
       .assembled t2 n [s] [], .assign t2, .endorsed t2]).2 =
      [Action.dispatch [t1], Action.dispatch [t2]] := by
  simp [runEvents, step, onTransactionAssembled, assignTransaction,
    onTransactionEndorsed, findTx, setTxStatus, setTxEndorsed, remoteOwners,
    depsOf, currentOwner, delegationLookup, inGraph, anyIntersect, memNat,
    dedupNat, eraseNat, insertIfAbsent, computeBatch, computeBatchAux,
    batchStep, eligibleForDispatch, depSatisfied, markDispatched, sortNat,
    insertSorted, initialSeqState, h12, h12.symm]

/-- Claim C10 witness at concrete inputs. -/
theorem sequencer_dispatched_dependency_not_blocking_witness :
    (1 ≠ 2) ∧
    (runEvents (initialSeqState 5)
      [.assembled 1 5 [] [10], .assign 1, .endorsed 1,
       .assembled 2 5 [10] [], .assign 2, .endorsed 2]).2 =
      [Action.dispatch [1], Action.dispatch [2]] :=
  ⟨by decide, sequencer_dispatched_dependency_not_blocking 5 1 2 10 (by decide)⟩

end Paladin
